import Mathlib

/-!
Verification of the Countries repository's filtering and lookup logic.

The JavaScript source (src/js/index.js, src/js/details.js, src/js/common.js)
is shallowly embedded here.  JavaScript strings are modelled as lists of
Unicode characters (`Str`).  The host primitives `String.prototype.normalize("NFD")`
and `String.prototype.toLowerCase()` are modelled by finite tables covering the
ASCII range and the precomposed Latin letters occurring in the dataset and the
specification examples; outside the modelled domain both act as the identity.
-/

namespace Countries

/-- A JavaScript string, modelled as its list of Unicode code points. -/
abbrev Str := List Char

/-- The combining marks stripped by `replace(/[̀-ͯ]/g, "")` in
`normalize` (src/js/index.js line 96). -/
def isCombMark (c : Char) : Bool :=
  0x300 ≤ c.toNat && c.toNat ≤ 0x36F

/-- Association-list lookup keyed by characters. -/
def lookupChar {α : Type} (table : List (Char × α)) (c : Char) : Option α :=
  match table with
  | [] => none
  | (k, v) :: rest => if c = k then some v else lookupChar rest c

/-- Canonical (NFD) decompositions of the precomposed Latin letters in the
modelled domain: base letter followed by a combining mark in U+0300–U+036F. -/
def nfdTable : List (Char × List Char) :=
  [('À', ['A', '\u0300']), ('Á', ['A', '\u0301']), ('Â', ['A', '\u0302']),
   ('Ã', ['A', '\u0303']), ('Ä', ['A', '\u0308']),
   ('Ç', ['C', '\u0327']),
   ('È', ['E', '\u0300']), ('É', ['E', '\u0301']), ('Ê', ['E', '\u0302']),
   ('Ë', ['E', '\u0308']),
   ('Ì', ['I', '\u0300']), ('Í', ['I', '\u0301']), ('Î', ['I', '\u0302']),
   ('Ï', ['I', '\u0308']),
   ('Ñ', ['N', '\u0303']),
   ('Ò', ['O', '\u0300']), ('Ó', ['O', '\u0301']), ('Ô', ['O', '\u0302']),
   ('Õ', ['O', '\u0303']), ('Ö', ['O', '\u0308']),
   ('Ù', ['U', '\u0300']), ('Ú', ['U', '\u0301']), ('Û', ['U', '\u0302']),
   ('Ü', ['U', '\u0308']),
   ('Ý', ['Y', '\u0301']),
   ('à', ['a', '\u0300']), ('á', ['a', '\u0301']), ('â', ['a', '\u0302']),
   ('ã', ['a', '\u0303']), ('ä', ['a', '\u0308']),
   ('ç', ['c', '\u0327']),
   ('è', ['e', '\u0300']), ('é', ['e', '\u0301']), ('ê', ['e', '\u0302']),
   ('ë', ['e', '\u0308']),
   ('ì', ['i', '\u0300']), ('í', ['i', '\u0301']), ('î', ['i', '\u0302']),
   ('ï', ['i', '\u0308']),
   ('ñ', ['n', '\u0303']),
   ('ò', ['o', '\u0300']), ('ó', ['o', '\u0301']), ('ô', ['o', '\u0302']),
   ('õ', ['o', '\u0303']), ('ö', ['o', '\u0308']),
   ('ù', ['u', '\u0300']), ('ú', ['u', '\u0301']), ('û', ['u', '\u0302']),
   ('ü', ['u', '\u0308']),
   ('ý', ['y', '\u0301']), ('ÿ', ['y', '\u0308'])]

/-- Per-character model of `str.normalize("NFD")`: characters in the table
decompose, every other character is already in normal form. -/
def nfdChar (c : Char) : List Char :=
  (lookupChar nfdTable c).getD [c]

/-- Uppercase-to-lowercase mapping of `String.prototype.toLowerCase()` on the
ASCII letters (the accented uppercase letters are decomposed by `nfdChar`
before lowercasing ever sees them). -/
def lowerPairs : List (Char × Char) :=
  [('A', 'a'), ('B', 'b'), ('C', 'c'), ('D', 'd'), ('E', 'e'), ('F', 'f'),
   ('G', 'g'), ('H', 'h'), ('I', 'i'), ('J', 'j'), ('K', 'k'), ('L', 'l'),
   ('M', 'm'), ('N', 'n'), ('O', 'o'), ('P', 'p'), ('Q', 'q'), ('R', 'r'),
   ('S', 's'), ('T', 't'), ('U', 'u'), ('V', 'v'), ('W', 'w'), ('X', 'x'),
   ('Y', 'y'), ('Z', 'z')]

/-- Per-character model of `toLowerCase()`. -/
def jsToLower (c : Char) : Char :=
  (lookupChar lowerPairs c).getD c

/-- The normalizer of src/js/index.js line 96:
`(str) => str.normalize("NFD").replace(/[̀-ͯ]/g, "").toLowerCase()`. -/
def normalize (s : Str) : Str :=
  ((s.flatMap nfdChar).filter (fun c => !isCombMark c)).map jsToLower

/-- A country record (spec section 3); every field is held as a string, the
way the JSON dataset delivers it. -/
structure Country where
  name : Str
  population : Str
  region : Str
  capital : Str
  flag : Str
deriving DecidableEq, Repr

/-- The raw region token `'all'` compared by `filterValue === 'all'`. -/
def litAll : Str := ['a', 'l', 'l']

/-- The filter callback of `updateGrid` (src/js/index.js lines 103–111):
region mode tests the raw criterion against `'all'` and otherwise compares
normalized regions; search mode tests whether the normalized name starts with
the normalized criterion. -/
def countryMatchesFilter (filterValue : Str) (isRegionFilter : Bool)
    (country : Country) : Bool :=
  if isRegionFilter then
    filterValue == litAll || normalize country.region == normalize filterValue
  else
    (normalize filterValue).isPrefixOf (normalize country.name)

/-- The `countries.filter(...)` step inside `updateGrid`. -/
def updateGridFilter (countries : List Country) (filterValue : Str)
    (isRegionFilter : Bool) : List Country :=
  countries.filter (countryMatchesFilter filterValue isRegionFilter)

/-- Model of `findCountryByName` (src/js/details.js lines 38–40 and the
src/js/common.js variant): `countries.find((country) => country.name === name)`.
`none` models the not-found result (`undefined`, or `null` in the
common.js variant) — the function returns, it never throws. -/
def findCountryByName (countries : List Country) (name : Str) : Option Country :=
  countries.find? (fun country => country.name == name)

/-- The character class kept by the search-input sanitizer
`replace(/[^a-zA-Z\s]/g, '')` (src/js/index.js line 70): ASCII letters and
the ECMAScript `\s` whitespace set. -/
def isJsWhitespaceChar (c : Char) : Bool :=
  c = ' ' || c = '\t' || c = '\n' || c.toNat = 0x0B || c.toNat = 0x0C ||
  c = '\r' || c.toNat = 0xA0 || c.toNat = 0x1680 ||
  (0x2000 ≤ c.toNat && c.toNat ≤ 0x200A) || c.toNat = 0x2028 ||
  c.toNat = 0x2029 || c.toNat = 0x202F || c.toNat = 0x205F ||
  c.toNat = 0x3000 || c.toNat = 0xFEFF

/-- A character survives `replace(/[^a-zA-Z\s]/g, '')` iff it is an ASCII
letter or ECMAScript whitespace. -/
def isAllowedSearchChar (c : Char) : Bool :=
  ('A' ≤ c && c ≤ 'Z') || ('a' ≤ c && c ≤ 'z') || isJsWhitespaceChar c

/-- Model of `String.prototype.trim()`: strip whitespace from both ends. -/
def jsTrim (s : Str) : Str :=
  ((s.dropWhile isJsWhitespaceChar).reverse.dropWhile isJsWhitespaceChar).reverse

/-- The search input listener (src/js/index.js lines 68–80): it strips the
disallowed characters, remembers whether a toast was shown
(`originalValue !== filteredValue`), and forwards the trimmed filtered value
to `updateGrid`.  Result: (value forwarded to the filter, toast shown). -/
def searchInputListener (originalValue : Str) : Str × Bool :=
  let filteredValue := originalValue.filter isAllowedSearchChar
  (jsTrim filteredValue, decide (originalValue ≠ filteredValue))

/-- The page state touched by `updateGrid`: the records currently rendered in
`.countries-grid` and the console error log. -/
structure GridState where
  gridContents : List Country
  consoleLog : List String
deriving Repr

/-- Model of `updateGrid` (src/js/index.js lines 92–118) as a state transformer.  The
dataset fetch is passed in as an `Except`: on success the grid is cleared and
rebuilt from the filtered list (`buildCountriesGrid`), on rejection control
jumps to the `catch` block, which only logs — `buildCountriesGrid` is never
reached, so the grid keeps its previous contents. -/
def updateGrid (fetchResult : Except String (List Country)) (filterValue : Str)
    (isRegionFilter : Bool) (st : GridState) : GridState :=
  match fetchResult with
  | Except.ok countries =>
      { st with gridContents := updateGridFilter countries filterValue isRegionFilter }
  | Except.error e =>
      { st with consoleLog := st.consoleLog ++ ["Error updating grid: " ++ e] }

/-- The two-record dataset of the specification's end-to-end example. -/
def mexicoRec : Country :=
  { name := "México".toList, population := "126014024".toList,
    region := "Americas".toList, capital := "Mexico City".toList,
    flag := "mx.svg".toList }

/-- The second record of the end-to-end example. -/
def monacoRec : Country :=
  { name := "Monaco".toList, population := "39242".toList,
    region := "Europe".toList, capital := "Monaco".toList,
    flag := "mc.svg".toList }

/-- The end-to-end example dataset, in its original order. -/
def demoCountries : List Country := [mexicoRec, monacoRec]

/-- Characters the normalizer leaves untouched: no NFD decomposition, not a
combining mark, and fixed by lowercasing. -/
def stableChar (c : Char) : Bool :=
  (lookupChar nfdTable c).isNone && !isCombMark c &&
    (lookupChar lowerPairs c).isNone

/-- A record named "X" in region "A". -/
def dupFirst : Country :=
  { name := ['X'], population := ['1'], region := ['A'], capital := ['P'],
    flag := ['f'] }

/-- A different record that also carries the name "X". -/
def dupSecond : Country :=
  { name := ['X'], population := ['2'], region := ['B'], capital := ['Q'],
    flag := ['g'] }

/-! ### Lemmas about the character tables and the normalizer -/

theorem lookupChar_eq_none {α : Type} (table : List (Char × α)) (c : Char)
    (h : ∀ p ∈ table, c ≠ p.1) : lookupChar table c = none := by
  induction table with
  | nil => rfl
  | cons p rest ih =>
      obtain ⟨k, v⟩ := p
      have hck : c ≠ k := h (k, v) (List.mem_cons_self _ _)
      simp only [lookupChar, if_neg hck]
      exact ih fun q hq => h q (List.mem_cons_of_mem _ hq)

theorem mem_of_lookupChar_eq_some {α : Type} {table : List (Char × α)}
    {c : Char} {v : α} (h : lookupChar table c = some v) : (c, v) ∈ table := by
  induction table with
  | nil => simp [lookupChar] at h
  | cons p rest ih =>
      obtain ⟨k, w⟩ := p
      by_cases hck : c = k
      · subst hck
        have hw : lookupChar ((c, w) :: rest) c = some w := by simp [lookupChar]
        rw [hw] at h
        cases h
        exact List.mem_cons_self _ _
      · simp only [lookupChar, if_neg hck] at h
        exact List.mem_cons_of_mem _ (ih h)

theorem nfdChar_eq_of_stable {c : Char} (h : stableChar c = true) :
    nfdChar c = [c] := by
  simp only [stableChar, Bool.and_eq_true, Option.isNone_iff_eq_none] at h
  simp [nfdChar, h.1.1]

theorem isCombMark_eq_false_of_stable {c : Char} (h : stableChar c = true) :
    isCombMark c = false := by
  simp only [stableChar, Bool.and_eq_true, Bool.not_eq_true'] at h
  exact h.1.2

theorem jsToLower_eq_of_stable {c : Char} (h : stableChar c = true) :
    jsToLower c = c := by
  simp only [stableChar, Bool.and_eq_true, Option.isNone_iff_eq_none] at h
  simp [jsToLower, h.2]

/-- Every decomposition the table produces consists of combining marks and
characters that lowercase to stable characters. -/
theorem nfdTable_outputs_ok :
    ∀ p ∈ nfdTable, ∀ c ∈ p.2,
      isCombMark c = true ∨ stableChar (jsToLower c) = true := by decide

/-- Lowercasing an ASCII letter yields a stable character. -/
theorem lowerPairs_outputs_stable :
    ∀ p ∈ lowerPairs, stableChar p.2 = true := by decide

/-- The character-level core of idempotence: a non-mark character of an NFD
decomposition becomes stable after lowercasing. -/
theorem stableChar_jsToLower (b c : Char) (hmem : c ∈ nfdChar b)
    (hm : isCombMark c = false) : stableChar (jsToLower c) = true := by
  unfold nfdChar at hmem
  cases hl : lookupChar nfdTable b with
  | none =>
      rw [hl] at hmem
      simp only [Option.getD_none, List.mem_singleton] at hmem
      subst hmem
      unfold jsToLower
      cases hl2 : lookupChar lowerPairs c with
      | none =>
          simp only [Option.getD_none]
          simp [stableChar, hl, hm, hl2]
      | some d =>
          simp only [Option.getD_some]
          exact lowerPairs_outputs_stable (c, d) (mem_of_lookupChar_eq_some hl2)
  | some v =>
      rw [hl] at hmem
      simp only [Option.getD_some] at hmem
      rcases nfdTable_outputs_ok (b, v) (mem_of_lookupChar_eq_some hl) c hmem
        with h | h
      · rw [hm] at h
        simp at h
      · exact h

/-- Every character of a normalized string is stable. -/
theorem stableChar_of_mem_normalize {s : Str} {d : Char}
    (h : d ∈ normalize s) : stableChar d = true := by
  simp only [normalize, List.mem_map, List.mem_filter, List.mem_flatMap,
    Bool.not_eq_true'] at h
  obtain ⟨c, ⟨⟨b, hb, hc⟩, hm⟩, rfl⟩ := h
  exact stableChar_jsToLower b c hc hm

theorem flatMap_eq_self {f : Char → List Char} :
    ∀ t : Str, (∀ c ∈ t, f c = [c]) → t.flatMap f = t
  | [], _ => rfl
  | c :: t', h => by
      rw [List.flatMap_cons, h c (List.mem_cons_self _ _),
        flatMap_eq_self t' fun x hx => h x (List.mem_cons_of_mem _ hx)]
      rfl

theorem map_eq_self {f : Char → Char} :
    ∀ t : Str, (∀ c ∈ t, f c = c) → t.map f = t
  | [], _ => rfl
  | c :: t', h => by
      rw [List.map_cons, h c (List.mem_cons_self _ _),
        map_eq_self t' fun x hx => h x (List.mem_cons_of_mem _ hx)]

/-- A string of stable characters is a fixed point of the normalizer. -/
theorem normalize_eq_self_of_stable {t : Str}
    (h : ∀ c ∈ t, stableChar c = true) : normalize t = t := by
  unfold normalize
  rw [flatMap_eq_self t fun c hc => nfdChar_eq_of_stable (h c hc)]
  rw [List.filter_eq_self.mpr fun c hc => by
    simp [isCombMark_eq_false_of_stable (h c hc)]]
  exact map_eq_self t fun c hc => jsToLower_eq_of_stable (h c hc)

theorem take_isPrefixOf : ∀ (t : Str) (k : Nat), (t.take k).isPrefixOf t = true
  | _, 0 => by simp [List.isPrefixOf]
  | [], _ + 1 => by simp [List.isPrefixOf]
  | c :: t', k + 1 => by
      simp [List.isPrefixOf, List.take_succ_cons, take_isPrefixOf t' k]

/-- Trimming only removes characters. -/
theorem mem_of_mem_jsTrim {c : Char} {t : Str} (h : c ∈ jsTrim t) : c ∈ t := by
  unfold jsTrim at h
  rw [List.mem_reverse] at h
  have h2 : c ∈ (t.dropWhile isJsWhitespaceChar).reverse :=
    (List.dropWhile_sublist _).subset h
  rw [List.mem_reverse] at h2
  exact (List.dropWhile_sublist _).subset h2

/-- In region mode the raw token `'all'` switches filtering off. -/
theorem regionFilter_all_eq (records : List Country) :
    updateGridFilter records litAll true = records :=
  List.filter_eq_self.mpr fun r _ => by simp [countryMatchesFilter]

/-- In region mode any other criterion keeps exactly the records whose
normalized region equals the normalized criterion. -/
theorem regionFilter_nonAll_eq (records : List Country) (criterion : Str)
    (h : criterion ≠ litAll) :
    updateGridFilter records criterion true =
      records.filter (fun r => normalize r.region == normalize criterion) :=
  List.filter_congr fun r _ => by
    have hb : (criterion == litAll) = false := beq_eq_false_iff_ne.mpr h
    simp [countryMatchesFilter, hb]

/-! ### The claims -/

/-- Claim C1: in region mode the criterion `'all'` returns every record of
the list, and any other criterion returns exactly the records whose
normalized region equals the normalized criterion, in the original dataset
order. -/
theorem region_mode_filter_correct (records : List Country) (criterion : Str) :
    (criterion = litAll → updateGridFilter records criterion true = records) ∧
    (criterion ≠ litAll →
      updateGridFilter records criterion true =
        records.filter (fun r => normalize r.region == normalize criterion)) :=
  ⟨fun h => h ▸ regionFilter_all_eq records,
   fun h => regionFilter_nonAll_eq records criterion h⟩

/-- Witness for C1 on the example dataset with the criteria `"all"` and
`"europe"`. -/
theorem region_mode_filter_correct_witness :
    (litAll = litAll ∧ updateGridFilter demoCountries litAll true = demoCountries) ∧
    ("europe".toList ≠ litAll ∧
      updateGridFilter demoCountries "europe".toList true =
        demoCountries.filter
          (fun r => normalize r.region == normalize "europe".toList)) :=
  ⟨⟨rfl, (region_mode_filter_correct demoCountries litAll).1 rfl⟩,
   ⟨by decide,
    (region_mode_filter_correct demoCountries "europe".toList).2 (by decide)⟩⟩

/-- Claim C2: in search mode the filter returns exactly the records whose
normalized name starts with the normalized criterion, in the original order,
and the empty criterion returns every record of the list. -/
theorem search_mode_filter_correct (records : List Country) (criterion : Str) :
    (criterion = [] → updateGridFilter records criterion false = records) ∧
    updateGridFilter records criterion false =
      records.filter
        (fun r => (normalize criterion).isPrefixOf (normalize r.name)) := by
  constructor
  · intro h
    subst h
    exact List.filter_eq_self.mpr fun r _ => by
      have hnil : normalize ([] : Str) = [] := rfl
      simp [countryMatchesFilter, hnil, List.isPrefixOf]
  · exact List.filter_congr fun r _ => by simp [countryMatchesFilter]

/-- Witness for C2: the empty criterion on the example dataset. -/
theorem search_mode_filter_correct_witness :
    ([] : Str) = [] ∧ updateGridFilter demoCountries [] false = demoCountries :=
  ⟨rfl, (search_mode_filter_correct demoCountries []).1 rfl⟩

/-- Claim C3: on the dataset [México (Americas), Monaco (Europe)], search
criterion "me" returns exactly the México record, region criterion "europe"
returns exactly the Monaco record, and region criterion "all" returns both
records in their original order. -/
theorem end_to_end_example :
    updateGridFilter demoCountries "me".toList false = [mexicoRec] ∧
    updateGridFilter demoCountries "europe".toList true = [monacoRec] ∧
    updateGridFilter demoCountries litAll true = demoCountries := by decide

/-- Counterexample to claim C4 as stated: with two distinct records sharing
the name "X", the second record is in the list, yet `findCountryByName`
looked up with its name returns the first record, not it. -/
theorem findByName_roundTrip_counterexample :
    dupSecond ∈ [dupFirst, dupSecond] ∧
      findCountryByName [dupFirst, dupSecond] dupSecond.name ≠ some dupSecond := by
  decide

/-- Claim C4, amended: `findCountryByName` matches by exact (non-normalized)
equality on the name field and returns the first match; the round trip
`findCountryByName records r.name = some r` holds for a record `r` of the
list provided no other record of the list carries the same name. -/
theorem findCountryByName_correct (records : List Country) :
    (∀ name r, findCountryByName records name = some r →
      r ∈ records ∧ r.name = name) ∧
    (∀ l r t, records = l ++ r :: t → (∀ x ∈ l, x.name ≠ r.name) →
      findCountryByName records r.name = some r) ∧
    (∀ r ∈ records, (∀ x ∈ records, x.name = r.name → x = r) →
      findCountryByName records r.name = some r) := by
  refine ⟨?_, ?_, ?_⟩
  · intro name r h
    have h' : List.find? (fun c => c.name == name) records = some r := h
    have hp := List.find?_some h'
    exact ⟨List.mem_of_find?_eq_some h', eq_of_beq hp⟩
  · intro l r t hrec hl
    subst hrec
    induction l with
    | nil => exact List.find?_cons_of_pos _ (by simp)
    | cons a l' ih =>
        rw [List.cons_append, findCountryByName,
          List.find?_cons_of_neg _ (by simp [hl a (List.mem_cons_self _ _)])]
        exact ih fun x hx => hl x (List.mem_cons_of_mem _ hx)
  · intro r hr huniq
    induction records with
    | nil => exact absurd hr (List.not_mem_nil r)
    | cons a rest ih =>
        by_cases ha : a.name = r.name
        · have har : a = r := huniq a (List.mem_cons_self _ _) ha
          subst har
          exact List.find?_cons_of_pos _ (by simp)
        · have hrrest : r ∈ rest := by
            rcases List.mem_cons.mp hr with h | h
            · exact absurd (by rw [h]) ha
            · exact h
          rw [findCountryByName, List.find?_cons_of_neg _ (by simp [ha])]
          exact ih hrrest fun x hx hxn =>
            huniq x (List.mem_cons_of_mem _ hx) hxn

/-- Witness for the amended C4: the Monaco record is recovered from the
example dataset, whose names are pairwise distinct. -/
theorem findCountryByName_correct_witness :
    monacoRec ∈ demoCountries ∧
      findCountryByName demoCountries monacoRec.name = some monacoRec :=
  ⟨by decide,
   (findCountryByName_correct demoCountries).2.2 monacoRec (by decide) (by decide)⟩

/-- Claim C5: filtering the singleton list [r] in search mode with the first
k characters of the normalized name of r yields a result containing r. -/
theorem search_filter_contains_record (r : Country) (k : Nat)
    (_hk : k ≤ (normalize r.name).length) :
    r ∈ updateGridFilter [r] ((normalize r.name).take k) false := by
  have hstable : ∀ c ∈ (normalize r.name).take k, stableChar c = true :=
    fun c hc => stableChar_of_mem_normalize (List.mem_of_mem_take hc)
  have hmatch : countryMatchesFilter ((normalize r.name).take k) false r = true := by
    show ((normalize ((normalize r.name).take k)).isPrefixOf (normalize r.name)) = true
    rw [normalize_eq_self_of_stable hstable]
    exact take_isPrefixOf (normalize r.name) k
  simp [updateGridFilter, List.filter_cons, hmatch]

/-- Witness for C5: the record México with the length-2 head of its
normalized name. -/
theorem search_filter_contains_record_witness :
    2 ≤ (normalize mexicoRec.name).length ∧
      mexicoRec ∈ updateGridFilter [mexicoRec]
        ((normalize mexicoRec.name).take 2) false :=
  ⟨by decide, search_filter_contains_record mexicoRec 2 (by decide)⟩

/-- Claim C6: the normalizer (NFD decomposition, stripping the combining
marks U+0300–U+036F, lowercasing) is idempotent. -/
theorem normalize_idem (s : Str) : normalize (normalize s) = normalize s :=
  normalize_eq_self_of_stable fun _ hc => stableChar_of_mem_normalize hc

/-- Claim C7: when no record matches the name, `findCountryByName` returns
the not-found sentinel (`none`, modelling `undefined`/`null`); being a total
function into `Option`, it never throws. -/
theorem findCountryByName_notFound (records : List Country) (name : Str)
    (h : ∀ r ∈ records, r.name ≠ name) :
    findCountryByName records name = none :=
  List.find?_eq_none.mpr fun r hr => by simp [h r hr]

/-- Witness for C7: the name "Nonexistent" on the example dataset. -/
theorem findCountryByName_notFound_witness :
    (∀ r ∈ demoCountries, r.name ≠ "Nonexistent".toList) ∧
      findCountryByName demoCountries "Nonexistent".toList = none :=
  ⟨by decide,
   findCountryByName_notFound demoCountries "Nonexistent".toList (by decide)⟩

/-- Claim C8: the value the search listener forwards to the filter contains
only characters of the class [A-Za-z\s], and the toast fires exactly when
the input held at least one character outside that class. -/
theorem search_input_sanitization (s : Str) :
    (∀ c ∈ (searchInputListener s).1, isAllowedSearchChar c = true) ∧
    ((searchInputListener s).2 = true ↔
      ∃ c ∈ s, isAllowedSearchChar c = false) := by
  constructor
  · intro c hc
    simp only [searchInputListener] at hc
    exact (List.mem_filter.mp (mem_of_mem_jsTrim hc)).2
  · simp only [searchInputListener]
    constructor
    · intro h2
      have hne : s ≠ s.filter isAllowedSearchChar := of_decide_eq_true h2
      by_contra hno
      push_neg at hno
      simp only [Bool.ne_false_iff] at hno
      exact hne (List.filter_eq_self.mpr hno).symm
    · rintro ⟨c, hc, hfalse⟩
      apply decide_eq_true
      intro heq
      have hall : isAllowedSearchChar c = true :=
        (List.mem_filter.mp (heq ▸ hc)).2
      rw [hfalse] at hall
      exact absurd hall Bool.false_ne_true

/-- Claim C9: the `'all'` bypass compares the raw criterion, so any
criterion other than the exact string `'all'` — for instance `"All"` — is
handled by normalized region equality instead of bypassing the filter; on
the example dataset `"All"` selects nothing. -/
theorem region_all_bypass_is_raw :
    (∀ (records : List Country) (criterion : Str), criterion ≠ litAll →
      updateGridFilter records criterion true =
        records.filter (fun r => normalize r.region == normalize criterion)) ∧
    updateGridFilter demoCountries ['A', 'l', 'l'] true = [] :=
  ⟨fun records criterion h => regionFilter_nonAll_eq records criterion h,
   by decide⟩

/-- Witness for C9: the criterion `"All"` is not the raw token `'all'` and
is filtered by normalized region equality. -/
theorem region_all_bypass_is_raw_witness :
    (['A', 'l', 'l'] : Str) ≠ litAll ∧
      updateGridFilter demoCountries ['A', 'l', 'l'] true =
        demoCountries.filter
          (fun r => normalize r.region == normalize ['A', 'l', 'l']) :=
  ⟨by decide, region_all_bypass_is_raw.1 demoCountries ['A', 'l', 'l'] (by decide)⟩

/-- Claim C10: when the dataset fetch rejects, `updateGrid` leaves the
rendered grid exactly as it was and only appends the error to the console
log. -/
theorem updateGrid_error_atomic (e : String) (filterValue : Str)
    (isRegionFilter : Bool) (st : GridState) :
    (updateGrid (Except.error e) filterValue isRegionFilter st).gridContents =
        st.gridContents ∧
    (updateGrid (Except.error e) filterValue isRegionFilter st).consoleLog =
        st.consoleLog ++ ["Error updating grid: " ++ e] :=
  ⟨rfl, rfl⟩

end Countries
